import Mathlib

/-!
Verification of the ACE_Framework memory subsystem.

Shallow embedding of:
 - `src/ace_rm/memory/core.py`   (class `ACE_Memory`)
 - `src/ace_rm/memory/queue.py`  (class `TaskQueue`)
 - `src/ace_rm/workers/background.py` (class `BackgroundWorker`)

Modelling conventions:
 - The SQLite `documents` table is a list of `Doc` kept in insertion order,
   which coincides with ascending `id` order for reachable states, matching
   SQLite's rowid scan order; `nextId` models the AUTOINCREMENT counter.
 - The faiss `IndexIDMap` is a list of `(id, vector)` pairs in insertion
   order.  Vector components are rationals (the float computations of the
   encoder are abstracted into a parameter `enc`).  For the L2 metric faiss
   reports squared L2 distances, which are exact over ℚ.
 - faiss `search` returns results ordered by score (ascending for L2,
   descending for inner product).  Its order among equal scores is
   unspecified; we model it with a stable insertion sort.  `search_k` is
   always `min (3k) ntotal ≤ ntotal`, so the `-1` id padding that faiss
   uses for missing results never occurs and ids are modelled as `Nat`.
 - The per-process freshness machinery (file locks, mtime checks,
   re-reading the index file) is the identity for a single façade instance:
   each write path ends by persisting the in-memory index and updating the
   cached mtime, so a subsequent read on the same façade sees exactly the
   in-memory state.  The embedding therefore carries one state.
 - The lexical FTS5 phase of `search` is a parameter
   `fts : String → Option (List String)`: `none` models the SQL query
   raising (e.g. a syntax error on a malformed MATCH pattern), `some rows`
   the ranked contents (`ORDER BY rank`); the SQL `LIMIT` becomes `take`.
 - `json.dumps(entities)` is an injective serialization irrelevant to all
   claims; entities are carried as the `List String` itself.
-/

namespace AceRM

/-- `ACE_DISTANCE_METRIC` (config.py): `l2` (default) or `cosine`. -/
inductive Metric where
  | l2
  | cosine
deriving DecidableEq, Repr

/-- Configuration and encoder environment of an `ACE_Memory` façade.
`enc` abstracts `self.encoder.encode` (deterministic for a fixed model),
`normalize` abstracts `faiss.normalize_L2` (only used under `cosine`, where
the true normalization needs square roots and is kept abstract). -/
structure Config where
  enc : String → List ℚ
  normalize : List ℚ → List ℚ
  usePrefixes : Bool
  metric : Metric
  distanceThreshold : ℚ

/-- One row of the `documents` table. -/
structure Doc where
  id : Nat
  content : String
  entities : List String
  problem_class : String
deriving DecidableEq, Repr

/-- State of one memory store: `documents` table, AUTOINCREMENT counter,
and the faiss `IndexIDMap` contents. -/
structure MemState where
  docs : List Doc
  nextId : Nat
  index : List (Nat × List ℚ)
deriving DecidableEq, Repr

/-- Squared L2 distance, the score faiss reports for `IndexFlatL2`. -/
def l2sq (v w : List ℚ) : ℚ :=
  (List.zipWith (fun a b => (a - b) ^ 2) v w).sum

/-- Inner product, the score faiss reports for `IndexFlatIP`. -/
def innerProd (v w : List ℚ) : ℚ :=
  (List.zipWith (fun a b => a * b) v w).sum

/-- Score of a stored vector against a query vector under the metric. -/
def vectorScore (m : Metric) (v q : List ℚ) : ℚ :=
  match m with
  | .l2 => l2sq v q
  | .cosine => innerProd v q

/-- Result ordering of faiss `search`: ascending score for L2,
descending for inner product. -/
def faissLe (m : Metric) (a b : Nat × ℚ) : Prop :=
  match m with
  | .l2 => a.2 ≤ b.2
  | .cosine => b.2 ≤ a.2

instance faissLeDecidable (m : Metric) : DecidableRel (faissLe m) := fun a b =>
  match m with
  | .l2 => inferInstanceAs (Decidable (a.2 ≤ b.2))
  | .cosine => inferInstanceAs (Decidable (b.2 ≤ a.2))

instance faissLeTotal (m : Metric) : IsTotal (Nat × ℚ) (faissLe m) where
  total a b := by cases m <;> exact le_total _ _

instance faissLeTrans (m : Metric) : IsTrans (Nat × ℚ) (faissLe m) where
  trans a b c hab hbc := by
    cases m
    · exact le_trans hab hbc
    · exact le_trans hbc hab

/-- Threshold filter of `search`/`find_similar_vectors`:
keep `dist < τ` for L2, `dist > τ` for cosine. -/
def passesThreshold (m : Metric) (score τ : ℚ) : Prop :=
  match m with
  | .l2 => score < τ
  | .cosine => τ < score

instance passesThresholdDecidable (m : Metric) (s τ : ℚ) :
    Decidable (passesThreshold m s τ) :=
  match m with
  | .l2 => inferInstanceAs (Decidable (s < τ))
  | .cosine => inferInstanceAs (Decidable (τ < s))

namespace ACE_Memory

/-- Document-side encoding text: `"検索文書: " + content` when the model
name contains "ruri" (`self.use_prefixes`), else the content itself. -/
def encodeDocText (cfg : Config) (c : String) : String :=
  if cfg.usePrefixes then "検索文書: " ++ c else c

/-- Query-side encoding text: `"検索クエリ: " + query` under prefixes. -/
def encodeQueryText (cfg : Config) (c : String) : String :=
  if cfg.usePrefixes then "検索クエリ: " ++ c else c

/-- Vector stored for a document: encode, then L2-normalize iff cosine. -/
def embedDoc (cfg : Config) (c : String) : List ℚ :=
  let v := cfg.enc (encodeDocText cfg c)
  match cfg.metric with
  | .cosine => cfg.normalize v
  | .l2 => v

/-- `ACE_Memory.add` (core.py:96-120): INSERT a row (AUTOINCREMENT id),
encode the content, append `(doc_id, vector)` to the index.  The Python
method has no `return` statement, so its value is `None`; the second
component of the result is that returned value. -/
def add (cfg : Config) (s : MemState) (content : String)
    (entities : List String) (problem_class : String) : MemState × Option Nat :=
  let doc_id := s.nextId
  let s' : MemState :=
    { docs := s.docs ++ [⟨doc_id, content, entities, problem_class⟩]
      nextId := s.nextId + 1
      index := s.index ++ [(doc_id, embedDoc cfg content)] }
  (s', none)

/-- `ACE_Memory.update_document` (core.py:195-215): SQL UPDATE of the row
with the given id (affects zero rows when absent), then
`index.remove_ids([doc_id])` (removes every entry with that id, a no-op
when absent) followed by `index.add_with_ids(vector, [doc_id])`. -/
def update_document (cfg : Config) (s : MemState) (doc_id : Nat)
    (content : String) (entities : List String) (problem_class : String) :
    MemState :=
  { docs := s.docs.map (fun d =>
      if d.id = doc_id then
        { d with content := content, entities := entities,
                 problem_class := problem_class }
      else d)
    nextId := s.nextId
    index := (s.index.filter (fun p => p.1 ≠ doc_id))
               ++ [(doc_id, embedDoc cfg content)] }

/-- `ACE_Memory._rebuild_vectors_from_db` (core.py:81-94): re-encode every
document row and insert `(id, vector)` into a fresh empty index. -/
def rebuild_vectors_from_db (cfg : Config) (s : MemState) : MemState :=
  { s with index := s.docs.map (fun d => (d.id, embedDoc cfg d.content)) }

/-- `ACE_Memory.clear` (core.py:267-275): remove the database and index
files, then `__init__` re-creates an empty schema and an empty index. -/
def clearState : MemState :=
  { docs := [], nextId := 1, index := [] }

/-- Insertion of one SELECTed content into the `results` dict (keyed and
valued by the content, so a repeated content keeps its first position). -/
def dictInsert (acc : List String) (c : String) : List String :=
  if c ∈ acc then acc else acc ++ [c]

/-- Folding a list of contents into the `results` dict. -/
def dictInsertAll (acc : List String) (cs : List String) : List String :=
  cs.foldl dictInsert acc

/-- `query_vec` of `ACE_Memory.search` (core.py:233): the encoded query
(never normalized, even under cosine). -/
def queryVec (cfg : Config) (query : String) : List ℚ :=
  cfg.enc (encodeQueryText cfg query)

/-- The index entries paired with their score against the query. -/
def scoredIndex (cfg : Config) (s : MemState) (query : String) :
    List (Nat × ℚ) :=
  s.index.map (fun p => (p.1, vectorScore cfg.metric p.2 (queryVec cfg query)))

/-- `D, I = index.search(query_vec, search_k)` (core.py:234-235) with
`search_k = min (3k) ntotal`: the `search_k` best-scoring entries. -/
def faissHits (cfg : Config) (s : MemState) (query : String) (k : Nat) :
    List (Nat × ℚ) :=
  ((scoredIndex cfg s query).insertionSort (faissLe cfg.metric)).take
    (min (k * 3) s.index.length)

/-- `found_ids` (core.py:237-244): hits passing the metric-aware threshold,
truncated to `k`. -/
def foundIds (cfg : Config) (s : MemState) (query : String) (k : Nat)
    (τ : ℚ) : List Nat :=
  (((faissHits cfg s query k).filter
    (fun h => decide (passesThreshold cfg.metric h.2 τ))).map
    (fun h => h.1)).take k

/-- Vector phase of `ACE_Memory.search` (core.py:230-252): if the index is
non-empty and some id passed the threshold, SELECT the contents of the
found ids (rows come back in rowid order) into the results dict. -/
def vectorPhase (cfg : Config) (s : MemState) (query : String) (k : Nat)
    (τ : ℚ) : List String :=
  if 0 < s.index.length then
    if (foundIds cfg s query k τ).isEmpty then []
    else
      dictInsertAll []
        ((s.docs.filter (fun d => (foundIds cfg s query k τ).contains d.id)).map
          Doc.content)
  else []

/-- `ACE_Memory.search` (core.py:217-265): vector phase, then, when fewer
than `k` results, a lexical FTS phase with `LIMIT (k - len(results))`
whose rows are inserted unless their content is already present.  Any
exception in the lexical phase (`fts query = none`) is swallowed.  The
effective threshold is the argument or the configured default. -/
def search (cfg : Config) (fts : String → Option (List String))
    (s : MemState) (query : String) (k : Nat)
    (distance_threshold : Option ℚ) : List String :=
  if (vectorPhase cfg s query k
      (distance_threshold.getD cfg.distanceThreshold)).length < k then
    match fts query with
    | none => vectorPhase cfg s query k
        (distance_threshold.getD cfg.distanceThreshold)
    | some rows =>
        dictInsertAll
          (vectorPhase cfg s query k
            (distance_threshold.getD cfg.distanceThreshold))
          (rows.take (k - (vectorPhase cfg s query k
            (distance_threshold.getD cfg.distanceThreshold)).length))
  else vectorPhase cfg s query k
    (distance_threshold.getD cfg.distanceThreshold)

end ACE_Memory

/-- Status column of the `task_queue` table. -/
inductive TaskStatus where
  | pending
  | processing
  | done
  | failed
deriving DecidableEq, Repr

/-- One row of the `task_queue` table (queue.py:22-33). -/
structure Task where
  id : Nat
  user_input : String
  agent_output : String
  status : TaskStatus
  retries : Nat
  error_msg : Option String
deriving DecidableEq, Repr

instance taskLeTotal : IsTotal Task (fun a b => a.id ≤ b.id) :=
  ⟨fun a b => Nat.le_total a.id b.id⟩

instance taskLeTrans : IsTrans Task (fun a b => a.id ≤ b.id) :=
  ⟨fun _ _ _ h1 h2 => Nat.le_trans h1 h2⟩

/-- State of the task queue table with its AUTOINCREMENT counter. -/
structure QueueState where
  tasks : List Task
  nextId : Nat
deriving DecidableEq, Repr

namespace TaskQueue

/-- `TaskQueue.enqueue_task` (queue.py:35-40): INSERT with default
status `'pending'`, `retries = 0`, `error_msg` NULL. -/
def enqueue_task (q : QueueState) (user_input agent_output : String) :
    QueueState :=
  { tasks := q.tasks ++ [⟨q.nextId, user_input, agent_output, .pending, 0, none⟩]
    nextId := q.nextId + 1 }

/-- `TaskQueue.fetch_pending_task` (queue.py:42-50):
`SELECT * WHERE status = 'pending' ORDER BY id ASC LIMIT 1`. -/
def fetch_pending_task (q : QueueState) : Option Task :=
  ((q.tasks.filter (fun t => t.status = .pending)).insertionSort
    (fun a b => a.id ≤ b.id)).head?

/-- `TaskQueue.mark_task_processing` (queue.py:52-54): unconditional
`UPDATE task_queue SET status = 'processing' WHERE id = ?`. -/
def mark_task_processing (q : QueueState) (task_id : Nat) : QueueState :=
  { q with tasks := q.tasks.map (fun t =>
      if t.id = task_id then { t with status := .processing } else t) }

/-- `TaskQueue.mark_task_complete` (queue.py:56-58): unconditional
`UPDATE task_queue SET status = 'done' WHERE id = ?`. -/
def mark_task_complete (q : QueueState) (task_id : Nat) : QueueState :=
  { q with tasks := q.tasks.map (fun t =>
      if t.id = task_id then { t with status := .done } else t) }

/-- `TaskQueue.mark_task_failed` (queue.py:60-62): unconditional
`UPDATE task_queue SET status = 'failed', error_msg = ? WHERE id = ?`. -/
def mark_task_failed (q : QueueState) (task_id : Nat) (error_msg : String) :
    QueueState :=
  { q with tasks := q.tasks.map (fun t =>
      if t.id = task_id then { t with status := .failed,
                                      error_msg := some error_msg } else t) }

/-- Status of the task a `WHERE id = ?` lookup would see. -/
def getStatus (q : QueueState) (task_id : Nat) : Option TaskStatus :=
  (q.tasks.find? (fun t => t.id = task_id)).map Task.status

end TaskQueue

/-- Database path computed by `ACE_Memory.__init__` (core.py:15-24):
`user_data/ace_memory_<session_id>.db` for a session, otherwise
`config.DB_PATH = os.environ.get("ACE_DB_PATH", "ace_memory.db")`.
`aceDbPathEnv` is the value of the `ACE_DB_PATH` environment variable. -/
def memoryDbPath (aceDbPathEnv : Option String) (session_id : Option String) :
    String :=
  match session_id with
  | some sid => "user_data/ace_memory_" ++ sid ++ ".db"
  | none => aceDbPathEnv.getD "ace_memory.db"

/-- Database path computed by `TaskQueue.__init__` (queue.py:5-15), which
reads the same `ACE_DB_PATH` variable with the same default. -/
def queueDbPath (aceDbPathEnv : Option String) (session_id : Option String) :
    String :=
  match session_id with
  | some sid => "user_data/ace_memory_" ++ sid ++ ".db"
  | none => aceDbPathEnv.getD "ace_memory.db"

/-- A memory façade and a task queue constructed over the same database
file: the `documents` tables and, when present, the `task_queue` table
live in one SQLite file.  `taskTable = none` models a file in which no
`task_queue` table exists (as after `ACE_Memory.clear`, whose re-init
creates only the documents schema). -/
structure SystemState where
  mem : MemState
  taskTable : Option QueueState
deriving DecidableEq, Repr

/-- `ACE_Memory.clear` at the system level (core.py:267-275):
`os.remove(self.db_path)` deletes the one SQLite file, erasing every
enqueued task; `self.__init__` then runs `ACE_Memory._init_db`
(core.py:42-57), which re-creates only the `documents` tables — no
`CREATE TABLE ... task_queue` — so the fresh file has no task table. -/
def systemClear (_sys : SystemState) : SystemState :=
  { mem := ACE_Memory.clearState, taskTable := none }

/-- `TaskQueue.fetch_pending_task` issued through an existing `TaskQueue`
handle against the shared file: `SELECT * FROM task_queue ...` raises
`sqlite3.OperationalError` ("no such table: task_queue") when the table is
absent from the file; otherwise it returns the query result. -/
def fetch_pending_from_file (tbl : Option QueueState) :
    Except String (Option Task) :=
  match tbl with
  | none => .error "no such table: task_queue"
  | some q => .ok (TaskQueue.fetch_pending_task q)

/-- `TaskQueue.__init__` / `TaskQueue._init_db` (queue.py:17-33):
`CREATE TABLE IF NOT EXISTS task_queue` — creates an empty table when
absent, keeps an existing one.  Only constructing a new `TaskQueue` runs
this; the application keeps its queue objects across `clear`. -/
def initTaskTable (tbl : Option QueueState) : QueueState :=
  tbl.getD { tasks := [], nextId := 1 }

namespace BackgroundWorker

/-- Outcome recorded for a task by `BackgroundWorker.process_task`. -/
inductive TaskFinal where
  | done
  | failed (msg : String)
deriving DecidableEq, Repr

/-- A mutation of the memory store requested by the worker
(`memory.add` / `memory.update_document`).  The pre-search
`find_similar_vectors` / `get_document_by_id` calls are read-only and
only shape the prompt, so they are not effects. -/
inductive MemEffect where
  | addDoc (content : String) (entities : List String) (problem_class : String)
  | updateDoc (doc_id : Int) (content : String) (entities : List String)
      (problem_class : String)
deriving DecidableEq, Repr

/-- The fields `process_task` reads out of the parsed JSON object with
`data.get(...)`; `none` models an absent key. -/
structure OracleJson where
  should_store : Option Bool
  action : Option String
  target_doc_id : Option Int
  analysis : Option String
  entities : Option (List String)
  problem_class : Option String

/-- `response.content.strip() if response.content else ""`
(background.py:85): an absent or empty (falsy) content yields `""`. -/
def responseText (responseContent : Option String) : String :=
  match responseContent with
  | none => ""
  | some s => if s = "" then "" else s.trim

/-- Markdown fence stripping (background.py:94-97):
`res.split("```json")[1].split("```")[0].strip()` when `"```json" in res`,
else the same with `"```"`, else `res` unchanged.  `"sep" in res` is
exactly `res.splitOn sep` having a second component. -/
def extractJson (res : String) : String :=
  let p1 := res.splitOn "```json"
  if 2 ≤ p1.length then (((p1.getD 1 "").splitOn "```").headD "").trim
  else
    let p2 := res.splitOn "```"
    if 2 ≤ p2.length then (((p2.getD 1 "").splitOn "```").headD "").trim
    else res

/-- Action dispatch (background.py:126-133):
`if action == 'UPDATE' and target_doc_id is not None: update`
`elif action == 'KEPT': pass` `else: add`.  Note an `UPDATE` whose
`target_doc_id` is null falls through to the `add` branch. -/
def decideEffects (action : String) (target_doc_id : Option Int)
    (structured : String) (entities : List String) (problem_class : String) :
    List MemEffect :=
  match target_doc_id with
  | some tid =>
      if action = "UPDATE" then [.updateDoc tid structured entities problem_class]
      else if action = "KEPT" then []
      else [.addDoc structured entities problem_class]
  | none =>
      if action = "KEPT" then []
      else [.addDoc structured entities problem_class]

/-- `BackgroundWorker.process_task` (background.py:83-137), from the point
where the oracle (`self.llm.invoke`) has returned; `parse` models
`json.loads` (`none` = `JSONDecodeError`), `structureModel` models
`_structure_as_knowledge_model` (a second oracle call with a fallback to
the raw analysis).  Exceptions of `llm.invoke` itself or of the memory
mutations are caught by the outer `except`, which marks the task failed;
they are outside this success-path model. -/
def process_task (parse : String → Option OracleJson)
    (structureModel : String → String → String → String)
    (responseContent : Option String) (user_input agent_output : String) :
    TaskFinal × List MemEffect :=
  let res := responseText responseContent
  if res = "" then (.done, [])
  else
    let res2 := extractJson res
    if res2 = "" then (.done, [])
    else
      match parse res2 with
      | none => (.done, [])
      | some data =>
          if data.should_store.getD false then
            let action := (data.action.getD "NEW").toUpper
            let structured :=
              structureModel user_input agent_output (data.analysis.getD "")
            (.done, decideEffects action data.target_doc_id structured
              (data.entities.getD []) (data.problem_class.getD ""))
          else (.done, [])

end BackgroundWorker

/-- The spec's stated invariant: for every row in the `documents` table
there is exactly one vector with matching id in the vector index. -/
def docHasOneVector (s : MemState) : Prop :=
  ∀ d ∈ s.docs, s.index.countP (fun p => p.1 == d.id) = 1

/-- Strengthened store invariant: document ids are unique and below the
AUTOINCREMENT counter, every row has exactly one matching vector, and
every vector has a matching row (no orphans). -/
def StoreInv (s : MemState) : Prop :=
  (s.docs.map Doc.id).Nodup ∧
  (∀ d ∈ s.docs, d.id < s.nextId) ∧
  docHasOneVector s ∧
  (∀ p ∈ s.index, ∃ d ∈ s.docs, d.id = p.1)

instance docHasOneVectorDecidable (s : MemState) :
    Decidable (docHasOneVector s) :=
  inferInstanceAs
    (Decidable (∀ d ∈ s.docs, s.index.countP (fun p => p.1 == d.id) = 1))

instance storeInvDecidable (s : MemState) : Decidable (StoreInv s) :=
  inferInstanceAs (Decidable ((s.docs.map Doc.id).Nodup ∧
    (∀ d ∈ s.docs, d.id < s.nextId) ∧
    docHasOneVector s ∧
    (∀ p ∈ s.index, ∃ d ∈ s.docs, d.id = p.1)))

/-- Queue operations as issued by the worker protocol
(background.py:39-42,137,141): `mark_task_processing` only on a task just
fetched as `pending`, and `mark_task_complete` / `mark_task_failed` only
on the task it previously moved to `processing`. -/
inductive GuardedStep : QueueState → QueueState → Prop where
  | enq (q : QueueState) (ui ao : String) :
      GuardedStep q (TaskQueue.enqueue_task q ui ao)
  | toProcessing (q : QueueState) (tid : Nat)
      (h : TaskQueue.getStatus q tid = some .pending) :
      GuardedStep q (TaskQueue.mark_task_processing q tid)
  | toDone (q : QueueState) (tid : Nat)
      (h : TaskQueue.getStatus q tid = some .processing) :
      GuardedStep q (TaskQueue.mark_task_complete q tid)
  | toFailed (q : QueueState) (tid : Nat) (msg : String)
      (h : TaskQueue.getStatus q tid = some .processing) :
      GuardedStep q (TaskQueue.mark_task_failed q tid msg)

/-- A concrete configuration for witnesses: the default L2 metric, an
integral threshold (kernel-reducible, standing in for the default `1.8`),
no ruri prefixes, and a toy deterministic encoder. -/
def cfg0 : Config :=
  { enc := fun s => [(s.length : ℚ)]
    normalize := id
    usePrefixes := false
    metric := .l2
    distanceThreshold := 2 }

/-- C2: for every task processed by the worker, if the oracle response is
empty, contains no JSON content after fence stripping, fails to parse as
JSON, or parses with `should_store = false`, then the worker marks the
task done (not failed) and performs no memory mutation. -/
theorem worker_marks_done_without_mutation
    (parse : String → Option BackgroundWorker.OracleJson)
    (structureModel : String → String → String → String)
    (rc : Option String) (ui ao : String)
    (h : BackgroundWorker.responseText rc = "" ∨
         BackgroundWorker.extractJson (BackgroundWorker.responseText rc) = "" ∨
         parse (BackgroundWorker.extractJson (BackgroundWorker.responseText rc))
           = none ∨
         ∃ d, parse (BackgroundWorker.extractJson
                 (BackgroundWorker.responseText rc)) = some d ∧
           d.should_store.getD false = false) :
    BackgroundWorker.process_task parse structureModel rc ui ao =
      (BackgroundWorker.TaskFinal.done, []) := by
  unfold BackgroundWorker.process_task
  rcases h with h | h | h | ⟨d, hd, hs⟩
  · simp [h]
  · by_cases h0 : BackgroundWorker.responseText rc = "" <;> simp [h0, h]
  · by_cases h0 : BackgroundWorker.responseText rc = ""
    · simp [h0]
    · by_cases h1 :
        BackgroundWorker.extractJson (BackgroundWorker.responseText rc) = "" <;>
        simp [h0, h1, h]
  · by_cases h0 : BackgroundWorker.responseText rc = ""
    · simp [h0]
    · by_cases h1 :
        BackgroundWorker.extractJson (BackgroundWorker.responseText rc) = "" <;>
        simp [h0, h1, hd, hs]

/-- Witness for C2 at a concrete input: an absent oracle response is
treated as done with no mutation. -/
theorem worker_marks_done_without_mutation_witness :
    BackgroundWorker.process_task (fun _ => none) (fun _ _ r => r) none "u" "a"
      = (BackgroundWorker.TaskFinal.done, []) :=
  worker_marks_done_without_mutation (fun _ => none) (fun _ _ r => r) none
    "u" "a" (Or.inl rfl)

/-- C6 counterexample: at the concrete empty store, `add` assigns the new
document id `1` to the inserted row, but the Python method body has no
`return` statement, so the caller receives `None`, not the id. -/
theorem add_returns_none_not_id :
    (ACE_Memory.add cfg0 ACE_Memory.clearState "x" [] "").2 = none ∧
    ((ACE_Memory.add cfg0 ACE_Memory.clearState "x" [] "").1.docs.map Doc.id)
      = [1] := ⟨rfl, rfl⟩

/-- C6 amended: `add` inserts a document row whose id is the AUTOINCREMENT
counter — positive and strictly greater than every existing id, so
monotonically assigned — and bumps the counter, but it returns `None`
(no value) to its caller rather than the new id. -/
theorem add_inserts_row_returns_none (cfg : Config) (s : MemState)
    (c : String) (e : List String) (p : String)
    (hpos : 1 ≤ s.nextId) (hfresh : ∀ d ∈ s.docs, d.id < s.nextId) :
    (ACE_Memory.add cfg s c e p).2 = none ∧
    (ACE_Memory.add cfg s c e p).1.docs = s.docs ++ [⟨s.nextId, c, e, p⟩] ∧
    1 ≤ s.nextId ∧ (∀ d ∈ s.docs, d.id < s.nextId) ∧
    (ACE_Memory.add cfg s c e p).1.nextId = s.nextId + 1 :=
  ⟨rfl, rfl, hpos, hfresh, rfl⟩

/-- Witness for the amended C6 at the concrete empty store. -/
theorem add_inserts_row_returns_none_witness :
    (ACE_Memory.add cfg0 ACE_Memory.clearState "x" [] "").2 = none ∧
    (ACE_Memory.add cfg0 ACE_Memory.clearState "x" [] "").1.docs
      = ACE_Memory.clearState.docs ++ [⟨ACE_Memory.clearState.nextId, "x", [], ""⟩] ∧
    1 ≤ ACE_Memory.clearState.nextId ∧
    (∀ d ∈ ACE_Memory.clearState.docs, d.id < ACE_Memory.clearState.nextId) ∧
    (ACE_Memory.add cfg0 ACE_Memory.clearState "x" [] "").1.nextId
      = ACE_Memory.clearState.nextId + 1 :=
  add_inserts_row_returns_none cfg0 ACE_Memory.clearState "x" [] ""
    (by decide) (by decide)

/-- C8: when the lexical (FTS) query raises — e.g. a syntactically
malformed MATCH pattern — `search` does not propagate the error: the
exception is swallowed and exactly the vector-phase results are
returned. -/
theorem search_swallows_lexical_error (cfg : Config)
    (fts : String → Option (List String)) (s : MemState) (q : String)
    (k : Nat) (dt : Option ℚ) (h : fts q = none) :
    ACE_Memory.search cfg fts s q k dt =
      ACE_Memory.vectorPhase cfg s q k (dt.getD cfg.distanceThreshold) := by
  unfold ACE_Memory.search
  by_cases hlen :
      (ACE_Memory.vectorPhase cfg s q k
        (dt.getD cfg.distanceThreshold)).length < k <;>
    simp [hlen, h]

/-- Witness for C8 at a concrete store and an always-failing FTS query. -/
theorem search_swallows_lexical_error_witness :
    ACE_Memory.search cfg0 (fun _ => none) ACE_Memory.clearState "q" 3 none =
      ACE_Memory.vectorPhase cfg0 ACE_Memory.clearState "q" 3
        ((none : Option ℚ).getD cfg0.distanceThreshold) :=
  search_swallows_lexical_error cfg0 (fun _ => none) ACE_Memory.clearState
    "q" 3 none rfl

/-- C9: `update_document` on a `doc_id` with no matching row does not fail
and does not report the miss: the SQL UPDATE affects zero rows (the table
is unchanged), yet a vector keyed by `doc_id` is still inserted into the
index, producing a vector with no matching document row. -/
theorem update_missing_doc_inserts_orphan_vector (cfg : Config)
    (s : MemState) (doc_id : Nat) (c : String) (e : List String) (p : String)
    (h : doc_id ∉ s.docs.map Doc.id) :
    (ACE_Memory.update_document cfg s doc_id c e p).docs = s.docs ∧
    (doc_id, ACE_Memory.embedDoc cfg c)
      ∈ (ACE_Memory.update_document cfg s doc_id c e p).index ∧
    ∀ d ∈ (ACE_Memory.update_document cfg s doc_id c e p).docs,
      d.id ≠ doc_id := by
  have hid : ∀ d ∈ s.docs, d.id ≠ doc_id := by
    intro d hd hcontra
    exact h (hcontra ▸ List.mem_map_of_mem Doc.id hd)
  refine ⟨?_, ?_, ?_⟩
  · show s.docs.map _ = s.docs
    rw [show s.docs.map (fun d =>
        if d.id = doc_id then
          { d with content := c, entities := e, problem_class := p }
        else d) = s.docs.map id from
      List.map_congr_left (fun d hd => by simp [hid d hd]), List.map_id]
  · exact List.mem_append_right _ (List.mem_singleton.mpr rfl)
  · intro d hd
    apply hid
    revert hd
    show d ∈ s.docs.map _ → _
    rw [show s.docs.map (fun d =>
        if d.id = doc_id then
          { d with content := c, entities := e, problem_class := p }
        else d) = s.docs.map id from
      List.map_congr_left (fun d hd => by simp [hid d hd]), List.map_id]
    exact id

/-- Witness for C9: updating id 2 in a store holding only id 1. -/
theorem update_missing_doc_inserts_orphan_vector_witness :
    (ACE_Memory.update_document cfg0
        ⟨[⟨1, "a", [], ""⟩], 2, [(1, ACE_Memory.embedDoc cfg0 "a")]⟩
        2 "b" [] "").docs = [⟨1, "a", [], ""⟩] ∧
    (2, ACE_Memory.embedDoc cfg0 "b")
      ∈ (ACE_Memory.update_document cfg0
          ⟨[⟨1, "a", [], ""⟩], 2, [(1, ACE_Memory.embedDoc cfg0 "a")]⟩
          2 "b" [] "").index ∧
    ∀ d ∈ (ACE_Memory.update_document cfg0
        ⟨[⟨1, "a", [], ""⟩], 2, [(1, ACE_Memory.embedDoc cfg0 "a")]⟩
        2 "b" [] "").docs, d.id ≠ 2 :=
  update_missing_doc_inserts_orphan_vector cfg0
    ⟨[⟨1, "a", [], ""⟩], 2, [(1, ACE_Memory.embedDoc cfg0 "a")]⟩
    2 "b" [] "" (by decide)

/-- C10 counterexample: at a concrete system with one enqueued task,
`memory.clear()` leaves a database file with no `task_queue` table
(core.py `_init_db` re-creates only the documents schema), so the next
`fetch_pending_task` through the existing queue handle raises
`sqlite3.OperationalError` ("no such table: task_queue") instead of
returning nothing. -/
theorem clear_then_fetch_raises_no_such_table :
    fetch_pending_from_file
      (systemClear ⟨ACE_Memory.clearState,
        some (TaskQueue.enqueue_task ⟨[], 1⟩ "u" "a")⟩).taskTable
      = Except.error "no such table: task_queue" ∧
    fetch_pending_from_file
      (systemClear ⟨ACE_Memory.clearState,
        some (TaskQueue.enqueue_task ⟨[], 1⟩ "u" "a")⟩).taskTable
      ≠ Except.ok none := by
  constructor
  · rfl
  · intro h
    exact Except.noConfusion h

/-- C10 amended: `ACE_Memory.clear` removes the backing database file,
which holds the `task_queue` table as well whenever the queue was
constructed over the same path (the two constructors compute identical
paths for every session id, reading the same `ACE_DB_PATH` variable with
the same default), so every previously enqueued task is erased; but the
re-init after `clear` creates only the documents schema, so the existing
queue handle's next `fetch_pending_task` raises
`sqlite3.OperationalError` ("no such table: task_queue") rather than
returning nothing — only a freshly constructed `TaskQueue` over the same
path re-creates the empty table, and then `fetch_pending_task` returns
nothing regardless of how many tasks had been enqueued. -/
theorem memory_clear_erases_queue (env sid : Option String)
    (sys : SystemState) :
    memoryDbPath env sid = queueDbPath env sid ∧
    (systemClear sys).taskTable = none ∧
    fetch_pending_from_file (systemClear sys).taskTable
      = Except.error "no such table: task_queue" ∧
    TaskQueue.fetch_pending_task
      (initTaskTable (systemClear sys).taskTable) = none := by
  refine ⟨?_, rfl, rfl, rfl⟩
  cases sid <;> rfl

/-- C7: `fetch_pending_task` returns a pending task of smallest id when at
least one task is pending, and returns nothing both on an empty queue and
when every task is non-pending; it is a total function (never blocks). -/
theorem fetch_pending_returns_oldest_pending (q : QueueState) :
    ((∀ t ∈ q.tasks, t.status ≠ .pending) →
      TaskQueue.fetch_pending_task q = none) ∧
    (∀ t ∈ q.tasks, t.status = .pending →
      ∃ t', TaskQueue.fetch_pending_task q = some t' ∧ t' ∈ q.tasks ∧
        t'.status = .pending ∧
        ∀ u ∈ q.tasks, u.status = .pending → t'.id ≤ u.id) := by
  constructor
  · intro hall
    unfold TaskQueue.fetch_pending_task
    have hf : q.tasks.filter (fun t => t.status = TaskStatus.pending) = [] := by
      rw [List.filter_eq_nil_iff]
      intro t ht
      simp [hall t ht]
    rw [hf]
    rfl
  · intro t ht hst
    have htf : t ∈ q.tasks.filter (fun t => t.status = TaskStatus.pending) :=
      List.mem_filter.mpr ⟨ht, by simp [hst]⟩
    have hperm :
        ((q.tasks.filter (fun t => t.status = TaskStatus.pending)).insertionSort
          (fun a b => a.id ≤ b.id)).Perm
          (q.tasks.filter (fun t => t.status = TaskStatus.pending)) :=
      List.perm_insertionSort _ _
    have hmem : t ∈ (q.tasks.filter
        (fun t => t.status = TaskStatus.pending)).insertionSort
        (fun a b => a.id ≤ b.id) := hperm.mem_iff.mpr htf
    cases hsrtc : (q.tasks.filter
        (fun t => t.status = TaskStatus.pending)).insertionSort
        (fun a b => a.id ≤ b.id) with
    | nil => rw [hsrtc] at hmem; cases hmem
    | cons t' rest =>
      have hsorted := List.sorted_insertionSort (fun (a b : Task) => a.id ≤ b.id)
        (q.tasks.filter (fun t => t.status = TaskStatus.pending))
      rw [hsrtc] at hsorted
      have ht'mem : t' ∈ q.tasks.filter
          (fun t => t.status = TaskStatus.pending) :=
        hperm.mem_iff.mp (by rw [hsrtc]; exact List.mem_cons_self _ _)
      obtain ⟨ht'q, ht'p⟩ := List.mem_filter.mp ht'mem
      refine ⟨t', ?_, ht'q, by simpa using ht'p, ?_⟩
      · unfold TaskQueue.fetch_pending_task
        rw [hsrtc]
        rfl
      · intro u hu hup
        have huf : u ∈ q.tasks.filter
            (fun t => t.status = TaskStatus.pending) :=
          List.mem_filter.mpr ⟨hu, by simp [hup]⟩
        have humem := hperm.mem_iff.mpr huf
        rw [hsrtc] at humem
        rcases List.mem_cons.mp humem with rfl | hurest
        · exact le_refl _
        · exact List.rel_of_sorted_cons hsorted u hurest

/-- Witness for C7: on a queue whose only task is done, nothing is
fetched. -/
theorem fetch_pending_returns_oldest_pending_witness :
    TaskQueue.fetch_pending_task ⟨[⟨1, "u", "a", .done, 0, none⟩], 2⟩
      = none :=
  (fetch_pending_returns_oldest_pending
    ⟨[⟨1, "u", "a", .done, 0, none⟩], 2⟩).1 (by decide)

/-- `find?` by id over a list mapped with an id-preserving update. -/
theorem find_map_id_preserving (l : List Task) (tid : Nat)
    (g : Task → Task) (hg : ∀ t, (g t).id = t.id) :
    (l.map g).find? (fun t => t.id = tid)
      = (l.find? (fun t => t.id = tid)).map g := by
  rw [List.find?_map]
  have hpred : ((fun t : Task => decide (t.id = tid)) ∘ g)
      = (fun t : Task => decide (t.id = tid)) := by
    funext t
    simp [Function.comp, hg]
  rw [hpred]

/-- C3 counterexample: the `mark_*` queue operations are unconditional SQL
UPDATEs, so the operation sequence enqueue; mark_task_complete 1;
mark_task_processing 1 moves task 1 from the terminal state `done` back to
`processing`, refuting the claim for arbitrary operation sequences. -/
theorem unguarded_marks_leave_terminal_state :
    TaskQueue.getStatus
      (TaskQueue.mark_task_complete
        (TaskQueue.enqueue_task ⟨[], 1⟩ "u" "a") 1) 1
      = some TaskStatus.done ∧
    TaskQueue.getStatus
      (TaskQueue.mark_task_processing
        (TaskQueue.mark_task_complete
          (TaskQueue.enqueue_task ⟨[], 1⟩ "u" "a") 1) 1) 1
      = some TaskStatus.processing := by
  constructor <;> rfl

/-- C3 amended: when each mark operation is applied as the worker protocol
issues it — `mark_task_processing` only on a task observed `pending`, and
`mark_task_complete` / `mark_task_failed` only on a task observed
`processing` (the `GuardedStep` relation) — every task's status moves only
along pending → processing → (done | failed), and a task in a terminal
state never changes state.  The raw operations themselves are
unconditional updates and do not enforce this. -/
theorem guarded_queue_steps_follow_state_machine
    {q q' : QueueState} (step : GuardedStep q q') (tid : Nat)
    {st st' : TaskStatus}
    (h1 : TaskQueue.getStatus q tid = some st)
    (h2 : TaskQueue.getStatus q' tid = some st') :
    (st = st' ∨ (st = .pending ∧ st' = .processing) ∨
      (st = .processing ∧ (st' = .done ∨ st' = .failed))) ∧
    ((st = .done ∨ st = .failed) → st' = st) := by
  have main : st = st' ∨ (st = .pending ∧ st' = .processing) ∨
      (st = .processing ∧ (st' = .done ∨ st' = .failed)) := by
    unfold TaskQueue.getStatus at h1
    obtain ⟨tk, hfk, hstk⟩ := Option.map_eq_some'.mp h1
    have htkid : tk.id = tid := by
      have := List.find?_some hfk
      simpa using this
    cases step with
    | enq ui ao =>
      left
      unfold TaskQueue.getStatus TaskQueue.enqueue_task at h2
      rw [List.find?_append, hfk] at h2
      simp at h2
      rw [← hstk, ← h2]
    | toProcessing tid0 hg =>
      unfold TaskQueue.getStatus TaskQueue.mark_task_processing at h2
      rw [find_map_id_preserving _ _ _ (fun t => by split <;> rfl),
        hfk] at h2
      simp at h2
      by_cases hcase : tk.id = tid0
      · right; left
        rw [if_pos hcase] at h2
        refine ⟨?_, h2.symm⟩
        have htid : tid0 = tid := by rw [← hcase, htkid]
        subst htid
        unfold TaskQueue.getStatus at hg
        rw [hfk] at hg
        simp at hg
        rw [← hstk, hg]
      · left
        rw [if_neg hcase] at h2
        rw [← hstk, ← h2]
    | toDone tid0 hg =>
      unfold TaskQueue.getStatus TaskQueue.mark_task_complete at h2
      rw [find_map_id_preserving _ _ _ (fun t => by split <;> rfl),
        hfk] at h2
      simp at h2
      by_cases hcase : tk.id = tid0
      · right; right
        rw [if_pos hcase] at h2
        refine ⟨?_, Or.inl h2.symm⟩
        have htid : tid0 = tid := by rw [← hcase, htkid]
        subst htid
        unfold TaskQueue.getStatus at hg
        rw [hfk] at hg
        simp at hg
        rw [← hstk, hg]
      · left
        rw [if_neg hcase] at h2
        rw [← hstk, ← h2]
    | toFailed tid0 msg hg =>
      unfold TaskQueue.getStatus TaskQueue.mark_task_failed at h2
      rw [find_map_id_preserving _ _ _ (fun t => by split <;> rfl),
        hfk] at h2
      simp at h2
      by_cases hcase : tk.id = tid0
      · right; right
        rw [if_pos hcase] at h2
        refine ⟨?_, Or.inr h2.symm⟩
        have htid : tid0 = tid := by rw [← hcase, htkid]
        subst htid
        unfold TaskQueue.getStatus at hg
        rw [hfk] at hg
        simp at hg
        rw [← hstk, hg]
      · left
        rw [if_neg hcase] at h2
        rw [← hstk, ← h2]
  refine ⟨main, ?_⟩
  rcases main with rfl | ⟨rfl, rfl⟩ | ⟨rfl, h'⟩
  · intro _; rfl
  · intro hterm; rcases hterm with h | h <;> exact TaskStatus.noConfusion h
  · intro hterm; rcases hterm with h | h <;> exact TaskStatus.noConfusion h

/-- Witness for the amended C3: the guarded pending → processing step on a
freshly enqueued task. -/
theorem guarded_queue_steps_follow_state_machine_witness :
    ((TaskStatus.pending = TaskStatus.processing ∨
      (TaskStatus.pending = .pending ∧ TaskStatus.processing = .processing) ∨
      (TaskStatus.pending = .processing ∧
        (TaskStatus.processing = .done ∨ TaskStatus.processing = .failed))) ∧
     ((TaskStatus.pending = .done ∨ TaskStatus.pending = .failed) →
       TaskStatus.processing = TaskStatus.pending)) :=
  guarded_queue_steps_follow_state_machine
    (GuardedStep.toProcessing (TaskQueue.enqueue_task ⟨[], 1⟩ "u" "a") 1
      (by decide)) 1 (by decide) (by decide)

/-- Inserting into the results dict preserves distinctness. -/
theorem dictInsert_nodup {acc : List String} (h : acc.Nodup) (c : String) :
    (ACE_Memory.dictInsert acc c).Nodup := by
  unfold ACE_Memory.dictInsert
  split
  · exact h
  · next hne => simp [List.nodup_append, h, hne]

/-- Folding contents into the results dict preserves distinctness. -/
theorem dictInsertAll_nodup (cs : List String) :
    ∀ acc : List String, acc.Nodup →
      (ACE_Memory.dictInsertAll acc cs).Nodup := by
  induction cs with
  | nil => intro acc h; exact h
  | cons c cs ih =>
    intro acc h
    show (ACE_Memory.dictInsertAll (ACE_Memory.dictInsert acc c) cs).Nodup
    exact ih _ (dictInsert_nodup h c)

/-- One dict insertion grows the dict by at most one entry. -/
theorem dictInsert_length_le (acc : List String) (c : String) :
    (ACE_Memory.dictInsert acc c).length ≤ acc.length + 1 := by
  unfold ACE_Memory.dictInsert
  split
  · exact Nat.le_succ _
  · simp

/-- Folding `cs` into the dict grows it by at most `cs.length`. -/
theorem dictInsertAll_length_le (cs : List String) :
    ∀ acc : List String,
      (ACE_Memory.dictInsertAll acc cs).length ≤ acc.length + cs.length := by
  induction cs with
  | nil => intro acc; simp [ACE_Memory.dictInsertAll]
  | cons c cs ih =>
    intro acc
    show (ACE_Memory.dictInsertAll (ACE_Memory.dictInsert acc c) cs).length ≤ _
    have h1 := ih (ACE_Memory.dictInsert acc c)
    have h2 := dictInsert_length_le acc c
    simp only [List.length_cons]
    omega

/-- With unique document ids, a SELECT over an id list returns at most as
many rows as the list has elements. -/
theorem filter_contains_length_le (docs : List Doc) (ids : List Nat)
    (h : (docs.map Doc.id).Nodup) :
    (docs.filter (fun d => ids.contains d.id)).length ≤ ids.length := by
  have hsub : (docs.filter (fun d => ids.contains d.id)).map Doc.id ⊆ ids := by
    intro x hx
    obtain ⟨d, hd, rfl⟩ := List.mem_map.mp hx
    have hc := (List.mem_filter.mp hd).2
    simpa using hc
  have hnd : ((docs.filter (fun d => ids.contains d.id)).map Doc.id).Nodup :=
    h.sublist ((List.filter_sublist docs).map Doc.id)
  have := (hnd.subperm hsub).length_le
  simpa using this

/-- The vector phase alone returns at most `k` pairwise-distinct
contents. -/
theorem vectorPhase_bounded (cfg : Config) (s : MemState) (q : String)
    (k : Nat) (τ : ℚ) (h : (s.docs.map Doc.id).Nodup) :
    (ACE_Memory.vectorPhase cfg s q k τ).length ≤ k ∧
    (ACE_Memory.vectorPhase cfg s q k τ).Nodup := by
  unfold ACE_Memory.vectorPhase
  split
  · split
    · simp
    · constructor
      · have h1 := dictInsertAll_length_le
          ((s.docs.filter (fun d =>
            (ACE_Memory.foundIds cfg s q k τ).contains d.id)).map Doc.content)
          []
        have h2 := filter_contains_length_le s.docs
          (ACE_Memory.foundIds cfg s q k τ) h
        have h3 : (ACE_Memory.foundIds cfg s q k τ).length ≤ k := by
          unfold ACE_Memory.foundIds
          exact List.length_take_le _ _
        simp only [List.length_map, List.length_nil] at h1 h2 ⊢
        omega
      · exact dictInsertAll_nodup _ [] List.nodup_nil
  · simp

/-- C4: for every query, every `k ≥ 1` and every store state with unique
document ids, `search` returns at most `k` pairwise-distinct contents,
even when documents share contents or the vector and lexical phases hit
the same document. -/
theorem search_returns_at_most_k_distinct (cfg : Config)
    (fts : String → Option (List String)) (s : MemState) (q : String)
    (k : Nat) (dt : Option ℚ) (hk : 1 ≤ k)
    (hnodup : (s.docs.map Doc.id).Nodup) :
    (ACE_Memory.search cfg fts s q k dt).length ≤ k ∧
    (ACE_Memory.search cfg fts s q k dt).Nodup := by
  obtain ⟨hlen, hnd⟩ :=
    vectorPhase_bounded cfg s q k (dt.getD cfg.distanceThreshold) hnodup
  unfold ACE_Memory.search
  split
  · cases hfts : fts q with
    | none => exact ⟨hlen, hnd⟩
    | some rows =>
      dsimp only
      constructor
      · have h1 := dictInsertAll_length_le
          (rows.take (k - (ACE_Memory.vectorPhase cfg s q k
            (dt.getD cfg.distanceThreshold)).length))
          (ACE_Memory.vectorPhase cfg s q k (dt.getD cfg.distanceThreshold))
        have h2 : (rows.take (k - (ACE_Memory.vectorPhase cfg s q k
            (dt.getD cfg.distanceThreshold)).length)).length ≤
            k - (ACE_Memory.vectorPhase cfg s q k
              (dt.getD cfg.distanceThreshold)).length :=
          List.length_take_le _ _
        omega
      · exact dictInsertAll_nodup _ _ hnd
  · exact ⟨hlen, hnd⟩

/-- Witness for C4: a store with two documents sharing one content and a
lexical phase echoing it again yields a single result for `k = 2`. -/
theorem search_returns_at_most_k_distinct_witness :
    (ACE_Memory.search cfg0 (fun _ => some ["a", "a", "b"])
      ⟨[⟨1, "a", [], ""⟩, ⟨2, "a", [], ""⟩], 3,
        [(1, ACE_Memory.embedDoc cfg0 "a"), (2, ACE_Memory.embedDoc cfg0 "a")]⟩
      "a" 2 none).length ≤ 2 ∧
    (ACE_Memory.search cfg0 (fun _ => some ["a", "a", "b"])
      ⟨[⟨1, "a", [], ""⟩, ⟨2, "a", [], ""⟩], 3,
        [(1, ACE_Memory.embedDoc cfg0 "a"), (2, ACE_Memory.embedDoc cfg0 "a")]⟩
      "a" 2 none).Nodup :=
  search_returns_at_most_k_distinct cfg0 (fun _ => some ["a", "a", "b"])
    ⟨[⟨1, "a", [], ""⟩, ⟨2, "a", [], ""⟩], 3,
      [(1, ACE_Memory.embedDoc cfg0 "a"), (2, ACE_Memory.embedDoc cfg0 "a")]⟩
    "a" 2 none (by decide) (by decide)

/-- C1 counterexample: starting from the empty store, `add "a"` then
`update_document 2 "b"` (no row 2 exists, so an orphan vector with id 2 is
inserted) yields a committed state that still satisfies the claimed
invariant — every row has exactly one matching vector — yet the next
`add "c"` (which is assigned id 2 by AUTOINCREMENT) produces a row with
two matching vectors, so `add` does not preserve the invariant from every
invariant-satisfying committed state. -/
theorem add_after_orphan_update_breaks_row_vector_invariant :
    docHasOneVector
      (ACE_Memory.update_document cfg0
        (ACE_Memory.add cfg0 ACE_Memory.clearState "a" [] "").1 2 "b" [] "") ∧
    ¬ docHasOneVector
      (ACE_Memory.add cfg0
        (ACE_Memory.update_document cfg0
          (ACE_Memory.add cfg0 ACE_Memory.clearState "a" [] "").1 2 "b" [] "")
        "c" [] "").1 := by
  constructor
  · decide
  · decide

/-- C1 amended: the 1:1 row/vector correspondence is preserved by the
façade's operations provided the store additionally has no orphan vector
(every vector id belongs to a row) and all ids lie below the AUTOINCREMENT
counter — which `add`, `clear` and the startup rebuild maintain, and which
`update_document` maintains exactly when its `doc_id` refers to an
existing document (on a missing `doc_id` it inserts an orphan vector,
after which a later `add` can violate the row/vector invariant). -/
theorem memory_ops_preserve_one_to_one (cfg : Config) (s : MemState)
    (h : StoreInv s) :
    (∀ c e p, StoreInv (ACE_Memory.add cfg s c e p).1) ∧
    (∀ doc_id c e p, doc_id ∈ s.docs.map Doc.id →
      StoreInv (ACE_Memory.update_document cfg s doc_id c e p)) ∧
    StoreInv ACE_Memory.clearState ∧
    StoreInv (ACE_Memory.rebuild_vectors_from_db cfg s) := by
  obtain ⟨hnd, hlt, h11, hvd⟩ := h
  refine ⟨?_, ?_, ?_, ?_⟩
  · intro c e p
    refine ⟨?_, ?_, ?_, ?_⟩
    · show ((s.docs ++ ([⟨s.nextId, c, e, p⟩] : List Doc)).map Doc.id).Nodup
      rw [List.map_append, List.nodup_append]
      refine ⟨hnd, List.nodup_singleton _, fun a ha hb => ?_⟩
      obtain ⟨d, hd, rfl⟩ := List.mem_map.mp ha
      rw [show ([⟨s.nextId, c, e, p⟩] : List Doc).map Doc.id = [s.nextId] from
        rfl, List.mem_singleton] at hb
      exact absurd hb (Nat.ne_of_lt (hlt d hd))
    · intro d hd
      show d.id < s.nextId + 1
      rcases List.mem_append.mp hd with hold | hnew
      · exact Nat.lt_succ_of_lt (hlt d hold)
      · rw [List.mem_singleton] at hnew
        subst hnew
        exact Nat.lt_succ_self _
    · intro d hd
      show ((s.index ++ [(s.nextId, ACE_Memory.embedDoc cfg c)]).countP
        (fun pr => pr.1 == d.id)) = 1
      rw [List.countP_append]
      rcases List.mem_append.mp hd with hold | hnew
      · have hne : s.nextId ≠ d.id := fun hcontra =>
          absurd hcontra.symm (Nat.ne_of_lt (hlt d hold))
        have hone : List.countP (fun pr => pr.1 == d.id)
            [((s.nextId, ACE_Memory.embedDoc cfg c) : Nat × List ℚ)] = 0 := by
          simp [List.countP_singleton, hne]
        rw [hone, h11 d hold]
      · rw [List.mem_singleton] at hnew
        subst hnew
        have hz : s.index.countP
            (fun pr => pr.1 == Doc.id ⟨s.nextId, c, e, p⟩) = 0 := by
          rw [List.countP_eq_zero]
          intro pr hpr
          obtain ⟨d0, hd0, hid⟩ := hvd pr hpr
          simp only [beq_iff_eq]
          intro hcontra
          exact absurd (hid.trans hcontra) (Nat.ne_of_lt (hlt d0 hd0))
        rw [hz]
        simp [List.countP_singleton]
    · intro pr hpr
      rcases List.mem_append.mp hpr with hold | hnew
      · obtain ⟨d0, hd0, hid⟩ := hvd pr hold
        exact ⟨d0, List.mem_append_left _ hd0, hid⟩
      · rw [List.mem_singleton] at hnew
        subst hnew
        exact ⟨⟨s.nextId, c, e, p⟩,
          List.mem_append_right _ (List.mem_singleton.mpr rfl), rfl⟩
  · intro doc_id c e p hmem
    obtain ⟨dorig, hdorig, hdid⟩ := List.mem_map.mp hmem
    have hfid : ∀ d : Doc, (if d.id = doc_id then
        ({ d with content := c, entities := e, problem_class := p } : Doc)
      else d).id = d.id := by
      intro d
      split <;> rfl
    have hids : ((s.docs.map (fun d =>
        if d.id = doc_id then
          { d with content := c, entities := e, problem_class := p }
        else d)).map Doc.id) = s.docs.map Doc.id := by
      rw [List.map_map]
      exact List.map_congr_left (fun d _ => hfid d)
    refine ⟨?_, ?_, ?_, ?_⟩
    · show ((s.docs.map _).map Doc.id).Nodup
      rw [hids]
      exact hnd
    · intro d hd
      obtain ⟨d0, hd0, rfl⟩ := List.mem_map.mp hd
      show (if d0.id = doc_id then
          ({ d0 with content := c, entities := e, problem_class := p } : Doc)
        else d0).id < s.nextId
      rw [hfid d0]
      exact hlt d0 hd0
    · intro d hd
      obtain ⟨d0, hd0, rfl⟩ := List.mem_map.mp hd
      show (((s.index.filter (fun pr => pr.1 ≠ doc_id))
        ++ [(doc_id, ACE_Memory.embedDoc cfg c)]).countP
          (fun pr => pr.1 == (if d0.id = doc_id then
            ({ d0 with content := c, entities := e, problem_class := p } : Doc)
          else d0).id)) = 1
      rw [List.countP_append]
      simp only [hfid d0]
      by_cases hc : d0.id = doc_id
      · have hz : (s.index.filter (fun pr => pr.1 ≠ doc_id)).countP
            (fun pr => pr.1 == d0.id) = 0 := by
          rw [List.countP_eq_zero]
          intro pr hpr
          have hpp := List.of_mem_filter hpr
          simp only [beq_iff_eq]
          intro hcontra
          rw [hcontra, hc] at hpp
          simp at hpp
        have ho : List.countP (fun pr => pr.1 == d0.id)
            [((doc_id, ACE_Memory.embedDoc cfg c) : Nat × List ℚ)] = 1 := by
          simp [List.countP_singleton, hc]
        rw [hz, ho]
      · have hfil : (s.index.filter (fun pr => pr.1 ≠ doc_id)).countP
            (fun pr => pr.1 == d0.id) = s.index.countP
            (fun pr => pr.1 == d0.id) := by
          rw [List.countP_filter]
          apply List.countP_congr
          intro pr _
          by_cases hp : pr.1 = d0.id <;> simp [hp, hc]
        have ho : List.countP (fun pr => pr.1 == d0.id)
            [((doc_id, ACE_Memory.embedDoc cfg c) : Nat × List ℚ)] = 0 := by
          simp [List.countP_singleton]
          exact fun hcontra => hc hcontra.symm
        rw [hfil, ho, h11 d0 hd0]
    · intro pr hpr
      rcases List.mem_append.mp hpr with hold | hnew
      · obtain ⟨d0, hd0, hid⟩ := hvd pr (List.mem_of_mem_filter hold)
        refine ⟨(if d0.id = doc_id then
            ({ d0 with content := c, entities := e, problem_class := p } : Doc)
          else d0), List.mem_map_of_mem _ hd0, ?_⟩
        rw [hfid d0]
        exact hid
      · rw [List.mem_singleton] at hnew
        subst hnew
        refine ⟨(if dorig.id = doc_id then
            ({ dorig with content := c, entities := e, problem_class := p } : Doc)
          else dorig), List.mem_map_of_mem _ hdorig, ?_⟩
        rw [hfid dorig]
        exact hdid
  · decide
  · refine ⟨hnd, hlt, ?_, ?_⟩
    · intro d hd
      show ((s.docs.map (fun d0 =>
        (d0.id, ACE_Memory.embedDoc cfg d0.content))).countP
          (fun pr => pr.1 == d.id)) = 1
      rw [List.countP_map]
      have hcnt := List.count_eq_one_of_mem hnd (List.mem_map_of_mem Doc.id hd)
      rw [List.count, List.countP_map] at hcnt
      exact hcnt
    · intro pr hpr
      obtain ⟨d0, hd0, rfl⟩ := List.mem_map.mp hpr
      exact ⟨d0, hd0, rfl⟩

/-- Witness for the amended C1: one `add` on the empty store preserves the
strengthened invariant. -/
theorem memory_ops_preserve_one_to_one_witness :
    StoreInv (ACE_Memory.add cfg0 ACE_Memory.clearState "a" [] "").1 :=
  (memory_ops_preserve_one_to_one cfg0 ACE_Memory.clearState (by decide)).1
    "a" [] ""

/-- The squared L2 distance of a vector to itself is zero. -/
theorem l2sq_self (v : List ℚ) : l2sq v v = 0 := by
  induction v with
  | nil => rfl
  | cons a v ih =>
    show ((a - a) ^ 2 :: List.zipWith (fun a b => (a - b) ^ 2) v v).sum = 0
    rw [List.sum_cons]
    simp only [sub_self]
    rw [show ((0 : ℚ) ^ 2) = 0 from by norm_num, zero_add]
    exact ih

/-- The head of the sorted score list is related to every entry. -/
theorem insertionSort_head_rel (m : Metric) (l : List (Nat × ℚ))
    (h0 : Nat × ℚ) (t : List (Nat × ℚ))
    (hsort : l.insertionSort (faissLe m) = h0 :: t) :
    ∀ x ∈ l, faissLe m h0 x := by
  intro x hx
  have hsorted := List.sorted_insertionSort (faissLe m) l
  rw [hsort] at hsorted
  have hperm := List.perm_insertionSort (faissLe m) l
  rw [hsort] at hperm
  have hxmem : x ∈ h0 :: t := hperm.symm.subset hx
  rcases List.mem_cons.mp hxmem with rfl | hxt
  · cases m
    · exact le_refl _
    · exact le_refl _
  · exact List.rel_of_sorted_cons hsorted x hxt

/-- With unique ids, the SELECT over a singleton id list returns exactly
the one matching row. -/
theorem filter_id_singleton (l : List Doc) (x : Nat) (d : Doc)
    (hnd : (l.map Doc.id).Nodup) (hd : d ∈ l) (hid : d.id = x) :
    l.filter (fun e => ([x] : List Nat).contains e.id) = [d] := by
  induction l with
  | nil => cases hd
  | cons a rest ih =>
    rw [List.map_cons, List.nodup_cons] at hnd
    obtain ⟨hna, hnrest⟩ := hnd
    rcases List.mem_cons.mp hd with rfl | hdrest
    · rw [List.filter_cons, if_pos (by simp [hid])]
      congr 1
      rw [List.filter_eq_nil_iff]
      intro u hu
      simp only [List.contains_cons, List.contains_nil, Bool.or_false,
        beq_iff_eq]
      intro hcontra
      apply hna
      rw [hid, ← hcontra]
      exact List.mem_map_of_mem Doc.id hu
    · have hax : a.id ≠ x := by
        intro hcontra
        apply hna
        rw [hcontra, ← hid]
        exact List.mem_map_of_mem Doc.id hdrest
      rw [List.filter_cons, if_neg (by simp [hax])]
      exact ih hnrest hdrest

/-- C5: for every non-empty content `c`, after `add c e p` on a store with
a sound index, `search c 1` returns `c` as its top (first) result, under
the encoder-range proviso of the spec: the metric is the default L2 with a
positive threshold, no asymmetric prefixes are configured (so the
deterministic self-distance is `0 < τ`), and no stored document other than
ones with content `c` encodes at distance `0` from `c`'s encoding. -/
theorem add_then_search_returns_content_on_top (cfg : Config)
    (fts : String → Option (List String)) (s : MemState) (c : String)
    (e : List String) (p : String)
    (hm : cfg.metric = .l2) (hpre : cfg.usePrefixes = false)
    (hne : c ≠ "") (hτ : 0 < cfg.distanceThreshold)
    (hnd : (s.docs.map Doc.id).Nodup)
    (hfresh : ∀ d ∈ s.docs, d.id < s.nextId)
    (hsound : ∀ pr ∈ s.index, ∃ d ∈ s.docs, d.id = pr.1 ∧
      pr.2 = ACE_Memory.embedDoc cfg d.content)
    (huniq : ∀ d ∈ s.docs,
      l2sq (ACE_Memory.embedDoc cfg d.content) (cfg.enc c) ≤ 0 →
        d.content = c) :
    (ACE_Memory.search cfg fts (ACE_Memory.add cfg s c e p).1 c 1 none).head?
      = some c := by
  have hed : ∀ x, ACE_Memory.embedDoc cfg x = cfg.enc x := by
    intro x
    simp [ACE_Memory.embedDoc, ACE_Memory.encodeDocText, hm, hpre]
  have hqv : ACE_Memory.queryVec cfg c = cfg.enc c := by
    simp [ACE_Memory.queryVec, ACE_Memory.encodeQueryText, hpre]
  have hdocs' : (ACE_Memory.add cfg s c e p).1.docs
      = s.docs ++ [⟨s.nextId, c, e, p⟩] := rfl
  have hindex' : (ACE_Memory.add cfg s c e p).1.index
      = s.index ++ [(s.nextId, ACE_Memory.embedDoc cfg c)] := rfl
  have hlen' : 0 < (ACE_Memory.add cfg s c e p).1.index.length := by
    rw [hindex']
    simp
  have hscored : ACE_Memory.scoredIndex cfg (ACE_Memory.add cfg s c e p).1 c
      = (s.index.map (fun pr =>
          (pr.1, vectorScore cfg.metric pr.2 (cfg.enc c))))
        ++ [(s.nextId, 0)] := by
    rw [ACE_Memory.scoredIndex, hindex', hqv, List.map_append]
    congr 1
    simp [vectorScore, hm, hed, l2sq_self]
  obtain ⟨h0, t, hsort⟩ : ∃ h0 t,
      (ACE_Memory.scoredIndex cfg (ACE_Memory.add cfg s c e p).1
        c).insertionSort (faissLe cfg.metric) = h0 :: t := by
    cases hsc : (ACE_Memory.scoredIndex cfg (ACE_Memory.add cfg s c e p).1
        c).insertionSort (faissLe cfg.metric) with
    | nil =>
      have := List.length_insertionSort (faissLe cfg.metric)
        (ACE_Memory.scoredIndex cfg (ACE_Memory.add cfg s c e p).1 c)
      rw [hsc, hscored] at this
      simp at this
    | cons a b => exact ⟨a, b, rfl⟩
  have hzero : ((s.nextId, (0 : ℚ)) : Nat × ℚ)
      ∈ ACE_Memory.scoredIndex cfg (ACE_Memory.add cfg s c e p).1 c := by
    rw [hscored]
    exact List.mem_append_right _ (List.mem_singleton.mpr rfl)
  have hle0 : h0.2 ≤ 0 := by
    have hrel := insertionSort_head_rel cfg.metric _ h0 t hsort
      (s.nextId, 0) hzero
    rw [hm] at hrel
    exact hrel
  have hpass : passesThreshold cfg.metric h0.2 cfg.distanceThreshold := by
    rw [hm]
    exact lt_of_le_of_lt hle0 hτ
  obtain ⟨t', hhits⟩ : ∃ t',
      ACE_Memory.faissHits cfg (ACE_Memory.add cfg s c e p).1 c 1
        = h0 :: t' := by
    obtain ⟨m, hmeq⟩ : ∃ m,
        min (1 * 3) (ACE_Memory.add cfg s c e p).1.index.length = m + 1 := by
      refine ⟨min (1 * 3) (ACE_Memory.add cfg s c e p).1.index.length - 1, ?_⟩
      rw [hindex']
      simp
    rw [ACE_Memory.faissHits, hsort, hmeq, List.take_succ_cons]
    exact ⟨_, rfl⟩
  have hfound : ACE_Memory.foundIds cfg (ACE_Memory.add cfg s c e p).1 c 1
      cfg.distanceThreshold = [h0.1] := by
    rw [ACE_Memory.foundIds, hhits, List.filter_cons,
      if_pos (decide_eq_true hpass)]
    simp
  obtain ⟨d', hd'mem, hd'id, hd'c⟩ : ∃ d',
      d' ∈ (ACE_Memory.add cfg s c e p).1.docs ∧ d'.id = h0.1 ∧
        d'.content = c := by
    have hh0mem : h0 ∈ ACE_Memory.scoredIndex cfg
        (ACE_Memory.add cfg s c e p).1 c := by
      have hperm := List.perm_insertionSort (faissLe cfg.metric)
        (ACE_Memory.scoredIndex cfg (ACE_Memory.add cfg s c e p).1 c)
      rw [hsort] at hperm
      exact hperm.subset (List.mem_cons_self _ _)
    rw [hscored] at hh0mem
    rcases List.mem_append.mp hh0mem with hold | hnew
    · obtain ⟨pr, hpr, heq⟩ := List.mem_map.mp hold
      obtain ⟨d0, hd0, hid0, hvec⟩ := hsound pr hpr
      have hscore : h0.2
          = l2sq (ACE_Memory.embedDoc cfg d0.content) (cfg.enc c) := by
        rw [← heq]
        simp [vectorScore, hm, hvec]
      have hcc : d0.content = c := huniq d0 hd0 (by rw [← hscore]; exact hle0)
      refine ⟨d0, List.mem_append_left _ hd0, ?_, hcc⟩
      rw [← heq]
      exact hid0
    · rw [List.mem_singleton] at hnew
      refine ⟨⟨s.nextId, c, e, p⟩,
        List.mem_append_right _ (List.mem_singleton.mpr rfl), ?_, rfl⟩
      rw [hnew]
  have hnd' : ((ACE_Memory.add cfg s c e p).1.docs.map Doc.id).Nodup := by
    rw [hdocs', List.map_append, List.nodup_append]
    refine ⟨hnd, List.nodup_singleton _, fun a ha hb => ?_⟩
    obtain ⟨d, hd, rfl⟩ := List.mem_map.mp ha
    rw [show (([⟨s.nextId, c, e, p⟩] : List Doc)).map Doc.id = [s.nextId] from
      rfl, List.mem_singleton] at hb
    exact absurd hb (Nat.ne_of_lt (hfresh d hd))
  have hsel : (ACE_Memory.add cfg s c e p).1.docs.filter
      (fun d => ([h0.1] : List Nat).contains d.id) = [d'] :=
    filter_id_singleton _ h0.1 d' hnd' hd'mem hd'id
  have hvp : ACE_Memory.vectorPhase cfg (ACE_Memory.add cfg s c e p).1 c 1
      cfg.distanceThreshold = [c] := by
    rw [ACE_Memory.vectorPhase, if_pos hlen', hfound]
    rw [show (([h0.1] : List Nat).isEmpty) = false from rfl]
    simp only [Bool.false_eq_true, if_false]
    rw [hsel]
    simp [ACE_Memory.dictInsertAll, ACE_Memory.dictInsert, hd'c]
  rw [ACE_Memory.search]
  simp only [Option.getD_none]
  rw [hvp]
  simp

/-- Witness for C5: adding "hello" to the empty store and searching for it
returns it on top. -/
theorem add_then_search_returns_content_on_top_witness :
    (ACE_Memory.search cfg0 (fun _ => none)
      (ACE_Memory.add cfg0 ACE_Memory.clearState "hello" [] "").1
      "hello" 1 none).head? = some "hello" :=
  add_then_search_returns_content_on_top cfg0 (fun _ => none)
    ACE_Memory.clearState "hello" [] "" rfl rfl (by decide) (by decide)
    (by decide) (by decide) (by decide) (by decide)

end AceRM
